import Mathlib

/-!
Verification of the metrics engine in `third_party/xla_client/metrics.cc`
(namespace `xla::metrics`): the metrics arena, per-series sample storage
(`MetricData`), counters, the report emitter (`EmitMetricInfo`) and its
percentile/rate computations, and the locking structure.

Modelling conventions:
* `int64` timestamps are `ℤ`; `size_t` counters are `ℕ`.
* `double` values are modelled as exact rationals `ℚ` (the arithmetic the
  claims speak about is exact; where a claim depends on a genuinely
  floating-point fact this is noted at the definition).
* Undefined behaviour (modulus by zero, out-of-bounds vector access) is
  modelled by `Option`: `none` means the C++ executes UB.
-/

namespace Metrics

/-- A recorded sample, as in `metrics.h`/`metrics.cc`: an `int64` timestamp in
nanoseconds and a `double` value (modelled as an exact rational). -/
structure Sample where
  timestamp_ns : ℤ
  value : ℚ
deriving DecidableEq

/-- State of `MetricData` (metrics.cc:160-200): the fixed-size ring buffer
`samples_` (a `std::vector<Sample>` of length `max_samples`), the lifetime
write counter `count_`, and the lifetime sum `accumulator_`. -/
structure MetricData where
  samples_ : List Sample
  count_ : ℕ
  accumulator_ : ℚ
deriving DecidableEq

/-- `MetricData::MetricData(repr_fn, max_samples)` (metrics.cc:160-161):
`samples_(max_samples)` value-initialises `max_samples` slots. -/
def MetricData.init (max_samples : ℕ) : MetricData :=
  ⟨List.replicate max_samples ⟨0, 0⟩, 0, 0⟩

/-- `MetricData::AddSample` (metrics.cc:163-169):
`position = count_ % samples_.size(); ++count_; accumulator_ += value;
samples_[position] = Sample(timestamp_ns, value);`.
When `samples_.size() == 0` the modulus is a division by zero (UB), modelled
as `none`. -/
def MetricData.addSample (d : MetricData) (timestamp_ns : ℤ) (value : ℚ) :
    Option MetricData :=
  if d.samples_.length = 0 then none
  else
    some ⟨d.samples_.set (d.count_ % d.samples_.length) ⟨timestamp_ns, value⟩,
          d.count_ + 1, d.accumulator_ + value⟩

/-- `MetricData::Accumulator` (metrics.cc:171-174). -/
def MetricData.Accumulator (d : MetricData) : ℚ := d.accumulator_

/-- `MetricData::TotalSamples` (metrics.cc:176-179). -/
def MetricData.TotalSamples (d : MetricData) : ℕ := d.count_

/-- `MetricData::Samples` (metrics.cc:181-200), the retained-snapshot read: if
`count_ <= samples_.size()` the first `count_` slots, otherwise the ring
unwrap from `position = count_ % samples_.size()` to the end followed by the
slots before `position`. -/
def MetricData.Samples (d : MetricData) : List Sample :=
  if d.count_ ≤ d.samples_.length then d.samples_.take d.count_
  else
    d.samples_.drop (d.count_ % d.samples_.length) ++
      d.samples_.take (d.count_ % d.samples_.length)

/-- A sequence of `AddSample` calls on one series, in order. -/
def MetricData.addAll (d : MetricData) : List Sample → Option MetricData
  | [] => some d
  | s :: xs => (d.addSample s.timestamp_ns s.value).bind fun d2 => d2.addAll xs

theorem MetricData.addAll_append (d : MetricData) (xs ys : List Sample) :
    d.addAll (xs ++ ys) = (d.addAll xs).bind fun d2 => d2.addAll ys := by
  induction xs generalizing d with
  | nil => simp [MetricData.addAll]
  | cons s xs ih =>
    simp [MetricData.addAll]
    cases d.addSample s.timestamp_ns s.value with
    | none => simp
    | some d2 => simp [ih]

/-- Ring-slot update: taking one slot more than the written position splits as
the untouched prefix plus the new sample. -/
theorem take_set_succ (l : List Sample) (n : ℕ) (s : Sample) (h : n < l.length) :
    (l.set n s).take (n + 1) = l.take n ++ [s] := by
  rw [List.set_eq_take_cons_drop s h]
  have hlen : (l.take n).length = n := List.length_take_of_le (Nat.le_of_lt h)
  calc (l.take n ++ s :: l.drop (n + 1)).take (n + 1)
      = (l.take n ++ s :: l.drop (n + 1)).take ((l.take n).length + 1) := by rw [hlen]
    _ = l.take n ++ (s :: l.drop (n + 1)).take 1 := List.take_append 1
    _ = l.take n ++ [s] := by simp

theorem drop_set_succ (l : List Sample) (n : ℕ) (s : Sample) (h : n < l.length) :
    (l.set n s).drop (n + 1) = l.drop (n + 1) := by
  rw [List.set_eq_take_cons_drop s h]
  have hlen : (l.take n).length = n := List.length_take_of_le (Nat.le_of_lt h)
  have h2 : l.take n ++ s :: l.drop (n + 1) = (l.take n ++ [s]) ++ l.drop (n + 1) := by
    simp
  rw [h2, List.drop_append_of_le_length (by simp [hlen]),
    List.drop_eq_nil_of_le (by simp [hlen]), List.nil_append]

theorem take_set_of_le (l : List Sample) (n k : ℕ) (s : Sample) (hk : k ≤ n) :
    (l.set n s).take k = l.take k := by
  apply List.ext_getElem
  · simp
  · intro i h1 h2
    simp only [List.length_take, List.length_set] at h1 h2
    simp only [List.getElem_take]
    rw [List.getElem_set_ne (by omega)]

/-- Dropping the oldest retained sample commutes with the append view. -/
theorem drop_one_append (l₁ l₂ : List Sample) (h : l₁ ≠ []) :
    (l₁ ++ l₂).drop 1 = l₁.drop 1 ++ l₂ :=
  List.drop_append_of_le_length (Nat.one_le_iff_ne_zero.mpr
    (fun hc => h (List.length_eq_zero.mp hc)))

/-- At or above capacity, the two branches of `Samples()` agree with the ring
unwrap view (at `count_ == size` the unwrap offset is `0` and both give the
whole ring). -/
theorem Samples_unwrap (d : MetricData)
    (hn : d.samples_.length ≤ d.count_) :
    d.Samples = d.samples_.drop (d.count_ % d.samples_.length) ++
      d.samples_.take (d.count_ % d.samples_.length) := by
  rcases Nat.lt_or_ge d.samples_.length d.count_ with hlt | hge
  · simp only [MetricData.Samples]
    rw [if_neg (by omega)]
  · have heq : d.count_ = d.samples_.length := by omega
    simp only [MetricData.Samples]
    rw [if_pos (by omega), heq, Nat.mod_self, List.drop_zero, List.take_zero,
      List.take_length, List.append_nil]

/-- One `AddSample` step, seen through `Samples()`: below capacity the snapshot
grows by the new sample; at capacity the oldest retained sample is dropped and
the new one appended. -/
theorem Samples_addSample (d d' : MetricData) (t : ℤ) (v : ℚ)
    (hc : 1 ≤ d.samples_.length) (h : d.addSample t v = some d') :
    d'.Samples =
      (if d.count_ + 1 ≤ d.samples_.length then d.Samples else d.Samples.drop 1)
        ++ [⟨t, v⟩] := by
  have hlen0 : d.samples_.length ≠ 0 := by omega
  unfold MetricData.addSample at h
  rw [if_neg hlen0] at h
  have h' : d' = ⟨d.samples_.set (d.count_ % d.samples_.length) ⟨t, v⟩,
      d.count_ + 1, d.accumulator_ + v⟩ := (Option.some_inj.mp h).symm
  subst h'
  have hpc : d.count_ % d.samples_.length < d.samples_.length :=
    Nat.mod_lt _ (by omega)
  by_cases h1 : d.count_ + 1 ≤ d.samples_.length
  · -- below capacity: position is `count_` itself and the snapshot grows
    have hn_lt : d.count_ < d.samples_.length := by omega
    have hp_eq : d.count_ % d.samples_.length = d.count_ := Nat.mod_eq_of_lt hn_lt
    rw [if_pos h1]
    simp only [MetricData.Samples, List.length_set]
    rw [if_pos h1, if_pos (show d.count_ ≤ d.samples_.length by omega), hp_eq]
    exact take_set_succ d.samples_ d.count_ ⟨t, v⟩ hn_lt
  · -- at/above capacity: the ring wraps, evicting the oldest retained sample
    have hn_ge : d.samples_.length ≤ d.count_ := by omega
    rw [if_neg h1, Samples_unwrap d hn_ge]
    simp only [MetricData.Samples, List.length_set]
    rw [if_neg (show ¬ d.count_ + 1 ≤ d.samples_.length from h1), ← Nat.mod_add_mod]
    have hne : d.samples_.drop (d.count_ % d.samples_.length) ≠ [] :=
      List.ne_nil_of_length_pos (by rw [List.length_drop]; omega)
    generalize hp : d.count_ % d.samples_.length = p at hpc hne ⊢
    rcases Nat.lt_or_ge (p + 1) d.samples_.length with hplt | hpge
    · rw [Nat.mod_eq_of_lt hplt, drop_set_succ _ _ _ hpc, take_set_succ _ _ _ hpc,
        drop_one_append _ _ hne, List.drop_drop, ← List.append_assoc]
    · have hpeq : p + 1 = d.samples_.length := by omega
      rw [hpeq, Nat.mod_self, List.drop_zero, List.take_zero, List.append_nil,
        List.set_eq_take_cons_drop _ hpc, hpeq, List.drop_length,
        drop_one_append _ _ hne, List.drop_drop, hpeq, List.drop_length,
        List.nil_append]

/-- A successful `AddSample` step spelled out: at capacity at least one, the
call overwrites slot `count_ % size`, bumps `count_` and accumulates. -/
theorem MetricData.addSample_eq_some (d : MetricData) (t : ℤ) (v : ℚ)
    (hne : ¬ d.samples_.length = 0) :
    d.addSample t v = some ⟨d.samples_.set (d.count_ % d.samples_.length) ⟨t, v⟩,
      d.count_ + 1, d.accumulator_ + v⟩ := by
  unfold MetricData.addSample
  rw [if_neg hne]

/-- The retained part of an add history with capacity `c`: the most recent
`min (length, c)` samples, i.e. the history minus its evicted oldest part. -/
def retained (c : ℕ) (xs : List Sample) : List Sample :=
  xs.drop (xs.length - c)

theorem retained_append (c : ℕ) (xs : List Sample) (y : Sample) (hc : 1 ≤ c) :
    retained c (xs ++ [y]) =
      (if xs.length + 1 ≤ c then retained c xs else (retained c xs).drop 1) ++ [y] := by
  unfold retained
  by_cases h : xs.length + 1 ≤ c
  · rw [if_pos h]
    have h1 : xs.length - c = 0 := by omega
    have h0 : (xs ++ [y]).length - c = 0 := by
      simp only [List.length_append, List.length_cons, List.length_nil]
      omega
    rw [h0, h1, List.drop_zero, List.drop_zero]
  · rw [if_neg h]
    have e1 : (xs ++ [y]).length - c = xs.length + 1 - c := by simp
    have e2 : (xs.drop (xs.length - c)).drop 1 = xs.drop (xs.length + 1 - c) := by
      rw [List.drop_drop]
      congr 1
      omega
    rw [e1, List.drop_append_of_le_length (by omega), e2]

/-- Folding a full `AddSample` history into a freshly constructed series: the
write counter, the lifetime accumulator and the `Samples()` snapshot are all
determined by the history. -/
theorem addAll_spec (c : ℕ) (hc : 1 ≤ c) (xs : List Sample) :
    ∃ d, (MetricData.init c).addAll xs = some d ∧
      d.samples_.length = c ∧ d.count_ = xs.length ∧
      d.accumulator_ = (xs.map Sample.value).sum ∧
      d.Samples = retained c xs := by
  induction xs using List.reverseRecOn with
  | nil =>
    refine ⟨MetricData.init c, rfl, ?_, rfl, rfl, ?_⟩
    · simp [MetricData.init]
    · simp [MetricData.init, MetricData.Samples, retained]
  | append_singleton xs y ih =>
    obtain ⟨d, hAll, hlen, hcount, hacc, hsamp⟩ := ih
    have hne : ¬ d.samples_.length = 0 := by omega
    have hadd := MetricData.addSample_eq_some d y.timestamp_ns y.value hne
    refine ⟨⟨d.samples_.set (d.count_ % d.samples_.length)
        ⟨y.timestamp_ns, y.value⟩, d.count_ + 1, d.accumulator_ + y.value⟩,
      ?_, ?_, ?_, ?_, ?_⟩
    · rw [MetricData.addAll_append, hAll]
      simp [MetricData.addAll, hadd]
    · simp [hlen]
    · simp [hcount]
    · simp [hacc]
    · rw [Samples_addSample d _ _ _ (by omega) hadd,
        retained_append c xs y hc, hcount, hlen, hsamp]

/-- Four samples added in order at increasing timestamps, the spec's ring
unwrap example (values 1, 2, 3, 4). -/
def demoSamples : List Sample := [⟨10, 1⟩, ⟨20, 2⟩, ⟨30, 3⟩, ⟨40, 4⟩]

/-- The series state reached by adding `demoSamples` at capacity 3: slot 0 was
overwritten by the fourth sample. -/
def demoFinal3 : MetricData := ⟨[⟨40, 4⟩, ⟨20, 2⟩, ⟨30, 3⟩], 4, 10⟩

/-- The series state reached by adding `demoSamples` at capacity 2. -/
def demoFinal2 : MetricData := ⟨[⟨30, 3⟩, ⟨40, 4⟩], 4, 10⟩

/-- C5: for any sequence of `AddSample` calls on one metric (capacity at least
one, the domain on which `AddSample` is defined, cf. C10), `TotalSamples()`
equals the number of calls and `Accumulator()` equals the sum of all values
passed, regardless of how the call count compares to the capacity. -/
theorem lifetime_count_and_sum (c : ℕ) (xs : List Sample) (d : MetricData)
    (hc : 1 ≤ c) (h : (MetricData.init c).addAll xs = some d) :
    d.TotalSamples = xs.length ∧ d.Accumulator = (xs.map Sample.value).sum := by
  obtain ⟨d', h', _, hcount, hacc, _⟩ := addAll_spec c hc xs
  rw [h] at h'
  cases Option.some_inj.mp h'
  exact ⟨hcount, hacc⟩

theorem addAll_demo2 : (MetricData.init 2).addAll demoSamples = some demoFinal2 := by
  norm_num +decide [MetricData.init, MetricData.addAll, MetricData.addSample,
    demoSamples, demoFinal2, List.set, List.replicate]

theorem addAll_demo3 : (MetricData.init 3).addAll demoSamples = some demoFinal3 := by
  norm_num +decide [MetricData.init, MetricData.addAll, MetricData.addSample,
    demoSamples, demoFinal3, List.set, List.replicate]

theorem lifetime_count_and_sum_witness :
    demoFinal2.TotalSamples = demoSamples.length ∧
      demoFinal2.Accumulator = (demoSamples.map Sample.value).sum :=
  lifetime_count_and_sum 2 demoSamples demoFinal2 (by decide) addAll_demo2

/-- C4: with at least one sample added, `Samples()` returns exactly the suffix
of the add history that fits the capacity: chronological (oldest-first,
insertion) order, never more than `capacity` entries, and the last entry is
the most recently added sample.  When the history fits, the suffix is the
whole history (the first `write_count` ring slots); otherwise it is the ring
read from offset `write_count mod capacity` wrapping around. -/
theorem Samples_ring_unwrap (c : ℕ) (xs : List Sample) (d : MetricData)
    (hc : 1 ≤ c) (hxs : xs ≠ []) (h : (MetricData.init c).addAll xs = some d) :
    d.Samples = xs.drop (xs.length - c) ∧ d.Samples.length ≤ c ∧
      d.Samples <:+ xs ∧ d.Samples.getLast? = xs.getLast? := by
  obtain ⟨d', h', _, _, _, hsamp⟩ := addAll_spec c hc xs
  rw [h] at h'
  cases Option.some_inj.mp h'
  rw [hsamp]
  unfold retained
  have hlen1 : 1 ≤ xs.length :=
    Nat.one_le_iff_ne_zero.mpr fun h0 => hxs (List.length_eq_zero.mp h0)
  refine ⟨rfl, ?_, List.drop_suffix _ _, ?_⟩
  · rw [List.length_drop]
    omega
  · obtain ⟨t, ht⟩ := List.drop_suffix (xs.length - c) xs
    have hne : xs.drop (xs.length - c) ≠ [] :=
      List.ne_nil_of_length_pos (by rw [List.length_drop]; omega)
    conv_rhs => rw [← ht]
    rw [List.getLast?_append_of_ne_nil t hne]

theorem Samples_ring_unwrap_witness :
    ((MetricData.init 3).addAll demoSamples = some demoFinal3 ∧
      demoFinal3.Samples = [⟨20, 2⟩, ⟨30, 3⟩, ⟨40, 4⟩] ∧
      demoFinal3.Accumulator = 10 ∧ demoFinal3.TotalSamples = 4) ∧
    (demoFinal3.Samples = demoSamples.drop (demoSamples.length - 3) ∧
      demoFinal3.Samples.length ≤ 3 ∧ demoFinal3.Samples <:+ demoSamples ∧
      demoFinal3.Samples.getLast? = demoSamples.getLast?) :=
  ⟨⟨addAll_demo3, by decide, by decide, by decide⟩,
   Samples_ring_unwrap 3 demoSamples demoFinal3 (by decide) (by decide) addAll_demo3⟩

/-- C10: `AddSample` is well-defined exactly on capacities of at least one.
The slot is computed as `count_ % samples_.size()` with no guard in the code:
a series constructed with `max_samples == 0` makes this a modulus by zero
(undefined behaviour, modelled as `none`), while for every capacity of at
least one the computed slot is in bounds on every call. -/
theorem addSample_defined_iff (d : MetricData) (t : ℤ) (v : ℚ) :
    (d.samples_.length = 0 → d.addSample t v = none) ∧
    (1 ≤ d.samples_.length →
      d.count_ % d.samples_.length < d.samples_.length ∧
        (d.addSample t v).isSome = true) := by
  constructor
  · intro h0
    unfold MetricData.addSample
    rw [if_pos h0]
  · intro h1
    refine ⟨Nat.mod_lt _ (by omega), ?_⟩
    rw [MetricData.addSample_eq_some d t v (by omega)]
    rfl

theorem addSample_defined_iff_witness :
    ((MetricData.init 0).addSample 1 5 = none) ∧
    ((MetricData.init 2).count_ % (MetricData.init 2).samples_.length <
        (MetricData.init 2).samples_.length ∧
      ((MetricData.init 2).addSample 1 5).isSome = true) :=
  ⟨(addSample_defined_iff (MetricData.init 0) 1 5).1 (by decide),
   (addSample_defined_iff (MetricData.init 2) 1 5).2 (by decide)⟩

/-- `samples.front()` over the retained snapshot (meaningful when non-empty;
the default is never read under the emitter's non-empty guard). -/
def front (samples : List Sample) : Sample := samples.headD ⟨0, 0⟩

/-- `samples.back()` over the retained snapshot. -/
def back (samples : List Sample) : Sample := samples.getLastD ⟨0, 0⟩

/-- `delta_time = samples.back().timestamp_ns - samples.front().timestamp_ns`
(metrics.cc:122-123). -/
def delta_time (samples : List Sample) : ℤ :=
  (back samples).timestamp_ns - (front samples).timestamp_ns

/-- `total`, the loop sum of `sample.value` over the snapshot
(metrics.cc:118-121). -/
def sampleTotal (samples : List Sample) : ℚ := (samples.map Sample.value).sum

/-- The guard structure of EmitMetricInfo's rate block (metrics.cc:117-131):
the ValueRate and Rate lines are emitted together, inside
`if (!samples.empty())` and then `if (delta_time > 0)`. -/
def emitsRateLines (samples : List Sample) : Bool :=
  !samples.isEmpty && decide (0 < delta_time samples)

/-- `value_sec = 1e6 * (total / (delta_time / 1000.0))` (metrics.cc:125). -/
def value_sec (total : ℚ) (delta : ℤ) : ℚ :=
  1000000 * (total / ((delta : ℚ) / 1000))

/-- `count_sec = 1e6 * (samples.size() / (delta_time / 1000.0))`
(metrics.cc:128-129). -/
def count_sec (n : ℕ) (delta : ℤ) : ℚ :=
  1000000 * ((n : ℚ) / ((delta : ℚ) / 1000))

/-- Modelled from the spec: value rate `total / (Δt_ns × 1e-9)`, value units
per second. -/
def specValueRate (total : ℚ) (delta : ℤ) : ℚ :=
  total / ((delta : ℚ) * (1 / 1000000000))

/-- Modelled from the spec: count rate `(snapshot size) / (Δt_ns × 1e-9)`,
samples per second. -/
def specCountRate (n : ℕ) (delta : ℤ) : ℚ :=
  (n : ℚ) / ((delta : ℚ) * (1 / 1000000000))

/-- C8: the two rate lines are emitted iff at least two samples are retained
and the retained window spans positive time; one retained sample (front = back,
so the window is zero) or an all-equal-timestamp window omits both lines. -/
theorem rate_lines_iff (samples : List Sample) :
    emitsRateLines samples = true ↔
      2 ≤ samples.length ∧
        (front samples).timestamp_ns < (back samples).timestamp_ns := by
  match samples with
  | [] => simp [emitsRateLines]
  | [s] => simp [emitsRateLines, delta_time, front, back]
  | s :: s2 :: rest =>
    simp only [emitsRateLines, delta_time, front, back, List.isEmpty_cons,
      Bool.not_false, Bool.true_and, decide_eq_true_eq, List.length_cons]
    constructor
    · intro h
      exact ⟨by omega, by omega⟩
    · intro h
      omega

/-- C9: whenever the rate lines are emitted (`delta_time > 0`), the code's
`1e6 * (x / (delta_time / 1000.0))` formulation equals the spec's
`x / (Δt_ns × 1e-9)` for the value rate (with `total` the snapshot sum) and
for the count rate (with the snapshot size), in exact arithmetic. -/
theorem rates_match_spec (samples : List Sample) (h : 0 < delta_time samples) :
    value_sec (sampleTotal samples) (delta_time samples) =
      specValueRate (sampleTotal samples) (delta_time samples) ∧
    count_sec samples.length (delta_time samples) =
      specCountRate samples.length (delta_time samples) := by
  have hq : (0 : ℚ) < ((delta_time samples : ℤ) : ℚ) := by exact_mod_cast h
  have hne : ((delta_time samples : ℤ) : ℚ) ≠ 0 := ne_of_gt hq
  constructor
  · unfold value_sec specValueRate
    field_simp
    ring
  · unfold count_sec specCountRate
    field_simp
    ring

/-- A two-sample snapshot spanning one second. -/
def demoRate : List Sample := [⟨0, 1⟩, ⟨1000000000, 3⟩]

theorem rates_match_spec_witness :
    value_sec (sampleTotal demoRate) (delta_time demoRate) =
      specValueRate (sampleTotal demoRate) (delta_time demoRate) ∧
    count_sec demoRate.length (delta_time demoRate) =
      specCountRate demoRate.length (delta_time demoRate) :=
  rates_match_spec demoRate (by norm_num [delta_time, demoRate, front, back])

/-- `kPercentiles` (metrics.cc:135-136): the double constants modelled as the
rationals they denote.  Every claim proved below rests only on each constant
being non-negative and strictly below 1; this also holds for the IEEE-754
doubles actually stored (each is within 2^-50 of the rational and far from
1). -/
def kPercentiles : List ℚ :=
  [1/100, 1/20, 1/10, 1/5, 1/2, 4/5, 9/10, 19/20, 99/100]

/-- `size_t index = kPercentiles[i] * samples.size()` (metrics.cc:142): the
double-to-`size_t` conversion truncates toward zero, i.e. floor for these
non-negative products. -/
def percentileIndex (p : ℚ) (n : ℕ) : ℕ := (Int.floor (p * (n : ℚ))).toNat

/-- All nine accesses `samples[index]` of the percentile loop
(metrics.cc:141-148) are within bounds for snapshot size `n`.  The loop runs
unconditionally, also when the snapshot is empty. -/
def percentileAccessesInBounds (n : ℕ) : Prop :=
  ∀ p ∈ kPercentiles, percentileIndex p n < n

theorem percentileIndex_lt (p : ℚ) (h1 : p < 1) (n : ℕ)
    (hn : 1 ≤ n) : percentileIndex p n < n := by
  unfold percentileIndex
  have hq : (0 : ℚ) < (n : ℚ) := by exact_mod_cast hn
  have hlt : p * (n : ℚ) < (n : ℚ) := by
    calc p * (n : ℚ) < 1 * (n : ℚ) := mul_lt_mul_of_pos_right h1 hq
    _ = (n : ℚ) := one_mul _
  have hfl : Int.floor (p * (n : ℚ)) < (n : ℤ) := by
    rw [Int.floor_lt]
    exact_mod_cast hlt
  omega

/-- C1 counterexample: the percentile loop is not bounds-safe on an empty
snapshot (a metric registered but never sampled).  There is no clamp in the
code; with `n = 0` the loop still accesses `samples[0]` (the computed index is
`0`), which is out of bounds for the empty vector. -/
theorem percentile_loop_oob_on_empty :
    ¬ percentileAccessesInBounds 0 ∧ percentileIndex (1/100) 0 = 0 := by
  constructor
  · intro h
    exact Nat.not_lt_zero _ (h (1/100) (by norm_num [kPercentiles]))
  · norm_num [percentileIndex]

/-- C1 amended: the loop computes `index = floor(p * n)`; for every non-empty
snapshot every one of the nine indices lies in `[0, n-1]` without any
clamping (each percentile constant is below 1), so the indexing is in bounds;
with an empty snapshot the access is out of bounds (see the counterexample). -/
theorem percentile_bounds (n : ℕ) (hn : 1 ≤ n) : percentileAccessesInBounds n := by
  intro p hp
  simp only [kPercentiles, List.mem_cons, List.not_mem_nil, or_false] at hp
  rcases hp with h | h | h | h | h | h | h | h | h <;> subst h <;>
    exact percentileIndex_lt _ (by norm_num) n hn

theorem percentile_bounds_witness : percentileAccessesInBounds 1 :=
  percentile_bounds 1 (by norm_num)

/-- C++ default `operator<<(double)` rendering.  The report stream in
EmitMetricInfo never has a precision or `std::fixed` set, so doubles print in
the default general format with 6 significant digits, which renders an
integral value of magnitude below 10^6 as a bare integer, with no decimal
point.  The percentile-label loop only ever feeds it `kPercentiles[i] * 100.0`,
an integer in [1, 99] (also in double arithmetic: each product rounds to the
exact integer, and 6-significant-digit general output would drop the
fractional part anyway).  Non-integral rationals cannot occur there and are
mapped to an unused marker. -/
def defaultDoubleFmt (q : ℚ) : String :=
  if q.den = 1 then toString q.num else "nonintegral"

/-- A percentile label as EmitMetricInfo streams it:
`(*ss) << (kPercentiles[i] * 100.0)` (metrics.cc:146). -/
def percentileLabel (p : ℚ) : String := defaultDoubleFmt (p * 100)

/-- `samples[index].value` over the sorted snapshot for percentile point `p`
(metrics.cc:147).  `getD` is a totalisation device only; the C1 theorems
delimit when the access is actually in bounds. -/
def percentileValue (sorted : List Sample) (p : ℚ) : ℚ :=
  (sorted.getD (percentileIndex p sorted.length) ⟨0, 0⟩).value

/-- The `Percentiles:` line of the report (metrics.cc:140-149): after the
snapshot is sorted by value, the nine `<label>%=<formatted value>` chunks are
joined by `"; "` behind the `"  Percentiles: "` prefix; `r` is the series'
formatter `repr_fn_` (an arbitrary caller-supplied function). -/
def percentilesLine (r : ℚ → String) (sorted : List Sample) : String :=
  "  Percentiles: " ++ String.intercalate ("; ")
    (kPercentiles.map fun p =>
      percentileLabel p ++ "%=" ++ r (percentileValue sorted p))

/-- C3 counterexample: for a concrete metric (one sample, a formatter that
renders every value as `"v"`) the emitted line carries the labels `1%`, `5%`,
..., `99%` with no decimal places, not the `1.00%`, `5.00%`, ... the claim
requires. -/
theorem percentiles_line_no_decimals :
    percentilesLine (fun _ => "v") [⟨0, 7⟩] =
      "  Percentiles: 1%=v; 5%=v; 10%=v; 20%=v; 50%=v; 80%=v; 90%=v; 95%=v; 99%=v" ∧
    percentilesLine (fun _ => "v") [⟨0, 7⟩] ≠
      "  Percentiles: 1.00%=v; 5.00%=v; 10.00%=v; 20.00%=v; 50.00%=v; 80.00%=v; 90.00%=v; 95.00%=v; 99.00%=v" := by
  have h : percentilesLine (fun _ => "v") [⟨0, 7⟩] =
      "  Percentiles: 1%=v; 5%=v; 10%=v; 20%=v; 50%=v; 80%=v; 90%=v; 95%=v; 99%=v" := by
    norm_num [percentilesLine, kPercentiles, percentileLabel, defaultDoubleFmt]
    decide
  constructor
  · exact h
  · rw [h]
    decide

/-- C3 amended: the Percentiles line is the nine `<label>%=<value>` chunks
joined by `"; "`, and the labels render with no decimal places — `1`, `5`,
`10`, `20`, `50`, `80`, `90`, `95`, `99` — for every formatter and every
snapshot (default stream formatting of the integral doubles, not the
two-decimal `1.00` style of the claim). -/
theorem percentiles_line_format (r : ℚ → String) (sorted : List Sample) :
    percentilesLine r sorted = "  Percentiles: " ++ String.intercalate ("; ")
      (kPercentiles.map fun p =>
        percentileLabel p ++ "%=" ++ r (percentileValue sorted p)) ∧
    kPercentiles.map percentileLabel =
      ["1", "5", "10", "20", "50", "80", "90", "95", "99"] := by
  refine ⟨rfl, ?_⟩
  norm_num [kPercentiles, percentileLabel, defaultDoubleFmt]
  decide

/-- Modelled from the spec: `CounterData` is declared in `metrics.h`, which is
not part of this repository snapshot (only `metrics.cc` and
`computation_client.h` are).  Per the spec it is `{name, value: integer}`,
mutated by an atomic add; the name plays no role in the value dynamics. -/
structure CounterData where
  value_ : ℤ
deriving DecidableEq

/-- Modelled from the spec: `AddValue(delta: integer)`: atomic add; `delta`
may be any integer (commonly positive, no requirement enforced). -/
def CounterData.AddValue (c : CounterData) (delta : ℤ) : CounterData :=
  ⟨c.value_ + delta⟩

/-- Modelled from the spec: `Value() -> integer`: current total. -/
def CounterData.Value (c : CounterData) : ℤ := c.value_

/-- C7 counterexample: since `delta` may be any integer, the counter value is
not monotonically non-decreasing: from 0, `AddValue(-1)` makes `Value()`
smaller than before. -/
theorem counter_not_monotone :
    ¬ (⟨0⟩ : CounterData).Value ≤ ((⟨0⟩ : CounterData).AddValue (-1)).Value := by
  decide

/-- C7 amended: `AddValue(delta)` changes `Value()` by exactly `delta`, so the
value is non-decreasing across a call precisely when that call's `delta` is
non-negative; a negative `delta`, which the API permits, decreases it. -/
theorem counter_addValue_delta (c : CounterData) (delta : ℤ) :
    ((c.AddValue delta).Value = c.Value + delta) ∧
      (0 ≤ delta → c.Value ≤ (c.AddValue delta).Value) := by
  refine ⟨rfl, fun h => ?_⟩
  show c.value_ ≤ c.value_ + delta
  omega

theorem counter_addValue_delta_witness :
    (((⟨5⟩ : CounterData).AddValue 3).Value = (⟨5⟩ : CounterData).Value + 3) ∧
      (0 ≤ (3 : ℤ) →
        (⟨5⟩ : CounterData).Value ≤ ((⟨5⟩ : CounterData).AddValue 3).Value) :=
  counter_addValue_delta ⟨5⟩ 3

/-- Registry-side payload of one metric series (the arguments of the
`MetricData` constructor at metrics.cc:76-77): the formatter (as an opaque
tag), the capacity, and a creation identifier distinguishing distinct
`MetricData` objects. -/
structure MEntry where
  repr_tag : ℕ
  max_samples : ℕ
  uid : ℕ
deriving DecidableEq

/-- Registry-side payload of one counter series. -/
structure CEntry where
  uid : ℕ
deriving DecidableEq

/-- `std::map::emplace` (metrics.cc:78, 88): inserts only if the key is
absent, and returns the mapped value actually in the map (the existing one on
a hit, discarding `e`). -/
def emplace {β : Type} (m : List (String × β)) (name : String) (e : β) :
    List (String × β) × β :=
  match m.lookup name with
  | some old => (m, old)
  | none => (m ++ [(name, e)], e)

/-- The arena's two namespaces (metrics.cc:62-63) plus a counter for creation
identifiers. -/
structure MetricsArena where
  metrics_ : List (String × MEntry)
  counters_ : List (String × CEntry)
  next_uid : ℕ
deriving DecidableEq

/-- `MetricsArena::RegisterMetric` (metrics.cc:71-81), under the registry
lock: if the handle's cached pointer `*data` is already set, nothing happens;
otherwise a fresh `MetricData` object is constructed (with the formatter and
capacity passed to THIS call) and `emplace`d — the map keeps the existing
series when the name is already registered — and `*data` is set to the mapped
series. -/
def RegisterMetric (a : MetricsArena) (name : String) (repr_tag max_samples : ℕ)
    (data : Option MEntry) : MetricsArena × Option MEntry :=
  match data with
  | some e => (a, some e)
  | none =>
    let r := emplace a.metrics_ name ⟨repr_tag, max_samples, a.next_uid⟩
    (⟨r.1, a.counters_, a.next_uid + 1⟩, some r.2)

/-- `MetricsArena::RegisterCounter` (metrics.cc:83-91), symmetric, in its own
namespace. -/
def RegisterCounter (a : MetricsArena) (name : String) (data : Option CEntry) :
    MetricsArena × Option CEntry :=
  match data with
  | some e => (a, some e)
  | none =>
    let r := emplace a.counters_ name ⟨a.next_uid⟩
    (⟨a.metrics_, r.1, a.next_uid + 1⟩, some r.2)

/-- One registration call, as made by some handle binding itself. -/
inductive RegOp where
  | metric (name : String) (repr_tag max_samples : ℕ)
  | counter (name : String)
deriving DecidableEq

/-- A sequence of registration calls against the arena (each from an unbound
handle, i.e. cache `none`). -/
def applyOps (a : MetricsArena) : List RegOp → MetricsArena
  | [] => a
  | RegOp.metric n f c :: ops => applyOps (RegisterMetric a n f c none).1 ops
  | RegOp.counter n :: ops => applyOps (RegisterCounter a n none).1 ops

theorem lookup_append_some {β : Type} (m1 m2 : List (String × β)) (name : String)
    (e : β) (h : m1.lookup name = some e) : (m1 ++ m2).lookup name = some e := by
  induction m1 with
  | nil => simp [List.lookup] at h
  | cons kv rest ih =>
    rw [List.cons_append]
    cases hkv : (name == kv.1) with
    | true =>
      obtain ⟨k, v⟩ := kv
      rw [List.lookup] at h ⊢
      simp only [hkv] at h ⊢
      exact h
    | false =>
      obtain ⟨k, v⟩ := kv
      rw [List.lookup] at h ⊢
      simp only [hkv] at h ⊢
      exact ih h

theorem lookup_append_singleton {β : Type} (m : List (String × β)) (name : String)
    (e : β) (h : m.lookup name = none) : (m ++ [(name, e)]).lookup name = some e := by
  induction m with
  | nil => simp [List.lookup]
  | cons kv rest ih =>
    obtain ⟨k, v⟩ := kv
    rw [List.cons_append]
    cases hkv : (name == k) with
    | true =>
      simp only [List.lookup, hkv] at h
      exact (Option.some_ne_none v h).elim
    | false =>
      simp only [List.lookup, hkv] at h ⊢
      exact ih h

/-- Single-step preservation: an existing metric binding survives any later
registration call, unchanged. -/
theorem lookup_preserved_metric (a : MetricsArena) (name : String) (e : MEntry)
    (h : a.metrics_.lookup name = some e) :
    ∀ op : RegOp, (match op with
      | RegOp.metric n f c => (RegisterMetric a n f c none).1
      | RegOp.counter n => (RegisterCounter a n none).1).metrics_.lookup name
        = some e := by
  intro op
  cases op with
  | metric n f c =>
    unfold RegisterMetric emplace
    cases hl : a.metrics_.lookup n with
    | some old => simpa [hl] using h
    | none =>
      simp only [hl]
      exact lookup_append_some _ _ _ _ h
  | counter n =>
    unfold RegisterCounter emplace
    cases hl : a.counters_.lookup n with
    | some old => simpa [hl] using h
    | none => simpa [hl] using h

/-- Symmetric preservation for counter bindings. -/
theorem lookup_preserved_counter (a : MetricsArena) (name : String) (e : CEntry)
    (h : a.counters_.lookup name = some e) :
    ∀ op : RegOp, (match op with
      | RegOp.metric n f c => (RegisterMetric a n f c none).1
      | RegOp.counter n => (RegisterCounter a n none).1).counters_.lookup name
        = some e := by
  intro op
  cases op with
  | metric n f c =>
    unfold RegisterMetric emplace
    cases hl : a.metrics_.lookup n with
    | some old => simpa [hl] using h
    | none => simpa [hl] using h
  | counter n =>
    unfold RegisterCounter emplace
    cases hl : a.counters_.lookup n with
    | some old => simpa [hl] using h
    | none =>
      simp only [hl]
      exact lookup_append_some _ _ _ _ h

theorem applyOps_preserves_metric (a : MetricsArena) (name : String) (e : MEntry)
    (ops : List RegOp) (h : a.metrics_.lookup name = some e) :
    (applyOps a ops).metrics_.lookup name = some e := by
  induction ops generalizing a with
  | nil => exact h
  | cons op ops ih =>
    cases op with
    | metric n f c =>
      exact ih _ (lookup_preserved_metric a name e h (RegOp.metric n f c))
    | counter n =>
      exact ih _ (lookup_preserved_metric a name e h (RegOp.counter n))

theorem applyOps_preserves_counter (a : MetricsArena) (name : String) (e : CEntry)
    (ops : List RegOp) (h : a.counters_.lookup name = some e) :
    (applyOps a ops).counters_.lookup name = some e := by
  induction ops generalizing a with
  | nil => exact h
  | cons op ops ih =>
    cases op with
    | metric n f c =>
      exact ih _ (lookup_preserved_counter a name e h (RegOp.metric n f c))
    | counter n =>
      exact ih _ (lookup_preserved_counter a name e h (RegOp.counter n))

/-- C6: in each namespace, at most one storage object is ever stored per
name, and it is never removed or replaced: (1) an existing metric binding
survives every later sequence of registrations unchanged; (2) registering an
already-registered metric name leaves the metric map untouched and returns
the existing series — the formatter and capacity of the first registration
win, the new arguments are discarded; (3) a first registration stores exactly
the formatter and capacity passed; (4) the counter namespace behaves the same
way, independently. -/
theorem registry_at_most_once (a : MetricsArena) (name : String)
    (f c : ℕ) (e : MEntry) (ce : CEntry) (ops : List RegOp) :
    (a.metrics_.lookup name = some e →
      (applyOps a ops).metrics_.lookup name = some e ∧
      (RegisterMetric a name f c none).1.metrics_ = a.metrics_ ∧
      (RegisterMetric a name f c none).2 = some e) ∧
    (a.metrics_.lookup name = none →
      (RegisterMetric a name f c none).1.metrics_.lookup name =
        some ⟨f, c, a.next_uid⟩ ∧
      (RegisterMetric a name f c none).2 = some ⟨f, c, a.next_uid⟩) ∧
    (a.counters_.lookup name = some ce →
      (applyOps a ops).counters_.lookup name = some ce ∧
      (RegisterCounter a name none).1.counters_ = a.counters_ ∧
      (RegisterCounter a name none).2 = some ce) := by
  refine ⟨fun h => ⟨applyOps_preserves_metric a name e ops h, ?_, ?_⟩,
    fun h => ⟨?_, ?_⟩, fun h => ⟨applyOps_preserves_counter a name ce ops h, ?_, ?_⟩⟩
  · unfold RegisterMetric emplace
    rw [h]
  · unfold RegisterMetric emplace
    rw [h]
  · unfold RegisterMetric emplace
    rw [h]
    exact lookup_append_singleton (a.metrics_) name ⟨f, c, a.next_uid⟩ h
  · unfold RegisterMetric emplace
    rw [h]
  · unfold RegisterCounter emplace
    rw [h]
  · unfold RegisterCounter emplace
    rw [h]

/-- An arena holding one metric series `"m"` (formatter tag 1, capacity 10)
and one counter series `"c"`. -/
def arenaDemo : MetricsArena :=
  (RegisterCounter (RegisterMetric ⟨[], [], 0⟩ ("m") 1 10 none).1 ("c") none).1

theorem registry_at_most_once_witness :
    ((applyOps arenaDemo [RegOp.metric ("m") 2 20, RegOp.counter ("c")]).metrics_.lookup
        ("m") = some ⟨1, 10, 0⟩ ∧
      (RegisterMetric arenaDemo ("m") 2 20 none).1.metrics_ = arenaDemo.metrics_ ∧
      (RegisterMetric arenaDemo ("m") 2 20 none).2 = some ⟨1, 10, 0⟩) ∧
    ((RegisterMetric arenaDemo ("x") 3 30 none).1.metrics_.lookup ("x") =
        some ⟨3, 30, arenaDemo.next_uid⟩ ∧
      (RegisterMetric arenaDemo ("x") 3 30 none).2 =
        some ⟨3, 30, arenaDemo.next_uid⟩) ∧
    ((applyOps arenaDemo [RegOp.metric ("m") 2 20, RegOp.counter ("c")]).counters_.lookup
        ("c") = some ⟨1⟩ ∧
      (RegisterCounter arenaDemo ("c") none).1.counters_ = arenaDemo.counters_ ∧
      (RegisterCounter arenaDemo ("c") none).2 = some ⟨1⟩) :=
  ⟨(registry_at_most_once arenaDemo ("m") 2 20 ⟨1, 10, 0⟩ ⟨0⟩
      [RegOp.metric ("m") 2 20, RegOp.counter ("c")]).1 (by decide),
   (registry_at_most_once arenaDemo ("x") 3 30 ⟨0, 0, 0⟩ ⟨0⟩ []).2.1 (by decide),
   (registry_at_most_once arenaDemo ("c") 0 0 ⟨0, 0, 0⟩ ⟨1⟩
      [RegOp.metric ("m") 2 20, RegOp.counter ("c")]).2.2 (by decide)⟩

/-- The two lock tiers of the design: the arena's `lock_` (metrics.cc:61) and
one `lock_` per `MetricData` (declared in the header, acquired at
metrics.cc:164 and 183), identified here by the series name. -/
inductive LockId where
  | registry
  | series (name : String)
deriving DecidableEq

/-- An acquisition or release, in program order of one thread. -/
inductive LockEvent where
  | acq (l : LockId)
  | rel (l : LockId)
deriving DecidableEq

/-- Lock events of `MetricData::AddSample` (metrics.cc:163-169): only the
per-series lock, for the duration of the call. -/
def addSampleTrace (name : String) : List LockEvent :=
  [LockEvent.acq (LockId.series name), LockEvent.rel (LockId.series name)]

/-- Lock events of `MetricData::Samples` (metrics.cc:181-200): only the
per-series lock. -/
def samplesTrace (name : String) : List LockEvent :=
  [LockEvent.acq (LockId.series name), LockEvent.rel (LockId.series name)]

/-- Lock events of `MetricsArena::RegisterMetric` (metrics.cc:71-81): only
the registry lock (the `MetricData` constructor takes no lock). -/
def registerMetricTrace : List LockEvent :=
  [LockEvent.acq LockId.registry, LockEvent.rel LockId.registry]

/-- Lock events of `EmitMetricInfo` (metrics.cc:109-150): its only locking
activity is the `data->Samples(...)` call at line 113. -/
def emitMetricInfoTrace (name : String) : List LockEvent := samplesTrace name

/-- Lock events of `CreateMetricReport` (metrics.cc:306-316):
`ForEachMetric` (metrics.cc:93-99) holds the registry lock across the whole
iteration and invokes its callback — here `EmitMetricInfo` — on every
registered metric under that lock; then `ForEachCounter` (metrics.cc:101-107)
takes the registry lock again (counter emission reads an atomic value and
takes no series lock). -/
def createMetricReportTrace (metricNames : List String) : List LockEvent :=
  LockEvent.acq LockId.registry ::
    ((metricNames.map emitMetricInfoTrace).flatten ++
      [LockEvent.rel LockId.registry,
       LockEvent.acq LockId.registry, LockEvent.rel LockId.registry])

/-- Scans a single-thread trace: is some series lock acquired at a moment the
registry lock is held?  The flag tracks whether the registry lock is
currently held. -/
def seriesAcqUnderRegistry : Bool → List LockEvent → Bool
  | _, [] => false
  | _, LockEvent.acq LockId.registry :: tr => seriesAcqUnderRegistry true tr
  | _, LockEvent.rel LockId.registry :: tr => seriesAcqUnderRegistry false tr
  | held, LockEvent.acq (LockId.series _) :: tr =>
      held || seriesAcqUnderRegistry held tr
  | held, LockEvent.rel (LockId.series _) :: tr => seriesAcqUnderRegistry held tr

/-- Scans a single-thread trace: is the registry lock acquired at a moment at
least one series lock is held?  The counter tracks currently held series
locks. -/
def registryAcqUnderSeries : ℕ → List LockEvent → Bool
  | _, [] => false
  | n, LockEvent.acq LockId.registry :: tr =>
      decide (0 < n) || registryAcqUnderSeries n tr
  | n, LockEvent.rel LockId.registry :: tr => registryAcqUnderSeries n tr
  | n, LockEvent.acq (LockId.series _) :: tr => registryAcqUnderSeries (n + 1) tr
  | n, LockEvent.rel (LockId.series _) :: tr => registryAcqUnderSeries (n - 1) tr

/-- C2 counterexample: report generation for an arena with one registered
metric acquires that metric's series lock while the registry lock is held
(`ForEachMetric` wraps `EmitMetricInfo`, which calls `Samples()`). -/
theorem report_nests_registry_then_series :
    seriesAcqUnderRegistry false (createMetricReportTrace [("m")]) = true := rfl

theorem seriesScan_balanced_join (names : List String) (tr : List LockEvent) :
    registryAcqUnderSeries 0 ((names.map emitMetricInfoTrace).flatten ++ tr) =
      registryAcqUnderSeries 0 tr := by
  induction names with
  | nil => rfl
  | cons nm rest ih =>
    simpa [emitMetricInfoTrace, samplesTrace, registryAcqUnderSeries] using ih

/-- C2 amended: lock nesting exists but only in one direction.  `AddSample`,
`Samples` and registration each use a single lock tier and nest nothing;
report generation acquires series locks while holding the registry lock
(whenever at least one metric is registered) — contrary to the claim — but no
modelled operation ever acquires the registry lock while holding a series
lock, so the two-tier order is acyclic (registry before series) and free of
deadlock among these operations. -/
theorem lock_nesting_one_way (names : List String) (n : String) :
    seriesAcqUnderRegistry false (addSampleTrace n) = false ∧
    registryAcqUnderSeries 0 (addSampleTrace n) = false ∧
    seriesAcqUnderRegistry false (samplesTrace n) = false ∧
    registryAcqUnderSeries 0 (samplesTrace n) = false ∧
    seriesAcqUnderRegistry false registerMetricTrace = false ∧
    registryAcqUnderSeries 0 registerMetricTrace = false ∧
    registryAcqUnderSeries 0 (createMetricReportTrace names) = false ∧
    (names ≠ [] →
      seriesAcqUnderRegistry false (createMetricReportTrace names) = true) := by
  refine ⟨rfl, rfl, rfl, rfl, rfl, rfl, ?_, ?_⟩
  · show registryAcqUnderSeries 0 ((names.map emitMetricInfoTrace).flatten ++
        [LockEvent.rel LockId.registry, LockEvent.acq LockId.registry,
         LockEvent.rel LockId.registry]) = false
    rw [seriesScan_balanced_join]
    rfl
  · intro hne
    match names with
    | [] => exact (hne rfl).elim
    | nm :: rest => rfl

theorem lock_nesting_one_way_witness :
    seriesAcqUnderRegistry false (addSampleTrace ("a")) = false ∧
    registryAcqUnderSeries 0 (addSampleTrace ("a")) = false ∧
    seriesAcqUnderRegistry false (samplesTrace ("a")) = false ∧
    registryAcqUnderSeries 0 (samplesTrace ("a")) = false ∧
    seriesAcqUnderRegistry false registerMetricTrace = false ∧
    registryAcqUnderSeries 0 registerMetricTrace = false ∧
    registryAcqUnderSeries 0 (createMetricReportTrace [("m")]) = false ∧
    seriesAcqUnderRegistry false (createMetricReportTrace [("m")]) = true := by
  obtain ⟨h1, h2, h3, h4, h5, h6, h7, h8⟩ := lock_nesting_one_way [("m")] ("a")
  exact ⟨h1, h2, h3, h4, h5, h6, h7, h8 (by decide)⟩

end Metrics
